import Mathlib

/-!
Shallow embedding of the time-series reduction engine of the
`atlas-quicklook` repository (files `atlas_ql/utils/timeseries.py`
(checkpoint copy), `atlas_ql/utils/bls.py`, `atlas_ql/utils/io.py` and its
checkpoint copy), together with theorems settling the frozen claims.

Conventions of the embedding:
* Python/numpy floats are modelled as rationals `ℚ`; a value that may be
  non-finite (NaN or ±inf) is modelled as `Option ℚ` with `none` standing
  for a non-finite value.
* `np.sqrt` leaves `ℚ`, so a binned flux error is represented by its
  square (`fluxErrSq`): the source stores `flux_err = sqrt(1/Σw)`, the
  embedding stores the radicand `1/Σw`.  Since `sqrt` is a strictly
  monotone bijection on the nonnegative reals, the source's `flux_err`
  and this field determine each other; the source's division of
  `flux_err` by a normalization factor `c` is mirrored by dividing
  `fluxErrSq` by `c ^ 2` (the sign of a negative `c` is not tracked by
  this representation).
* A Python exception is modelled with `Except`: `Err` collects the
  `ValueError`s raised by `bin_phase_folded_data` and the
  `FileNotFoundError` that `pandas.read_csv` raises inside
  `read_lightcurve`.
-/

/-- Errors raised by the code: the three `ValueError`s of
`bin_phase_folded_data` (no valid flux values for normalization, unknown
normalization method, bad `num_cycles`) and the `FileNotFoundError` /
`EmptyDataError` escaping `pandas.read_csv` in `read_lightcurve`. -/
inductive Err where
  | noValidData
  | invalidNormalization
  | invalidCycleCount
  | fileNotFound
deriving DecidableEq, Repr

/-- Python's `%` operator on floats (numpy `np.mod`): the floored modulo
`a - b * floor(a / b)`.  For `b ≠ 0` the result lies between `0` and `b`
(sign of the divisor).  Python raises `ZeroDivisionError` (or numpy yields
NaN) at `b = 0`; no theorem below relies on the `b = 0` value. -/
def pymod (a b : ℚ) : ℚ := a - b * (⌊a / b⌋ : ℚ)

/-- `np.min` over a list.  numpy raises on an empty array; the `[]` case
below is a junk value never relied upon (theorems about the default
reference epoch assume a non-empty time array). -/
def listMin (l : List ℚ) : ℚ :=
  match l with
  | [] => 0
  | x :: xs => xs.foldl min x

/-- `np.max` over a list (same empty-array caveat as `listMin`). -/
def listMax (l : List ℚ) : ℚ :=
  match l with
  | [] => 0
  | x :: xs => xs.foldl max x

/-- `np.mean` over a list. -/
def npMean (l : List ℚ) : ℚ := l.sum / l.length

/-- `np.median` over a list: sort, take the middle element (odd length)
or the average of the two middle elements (even length). -/
def npMedian (l : List ℚ) : ℚ :=
  let s := List.insertionSort (fun a b : ℚ => a ≤ b) l
  let n := s.length
  if n % 2 = 1 then s.getD (n / 2) 0
  else (s.getD (n / 2 - 1) 0 + s.getD (n / 2) 0) / 2

/-- The per-element body of `phase_fold` (`timeseries.py`):
`dt = t - reference_epoch`;
`phase = ((dt - 0.5 * period_derivative / period * dt**2) % period) / period`.
The source applies this vectorized over the whole time array. -/
def phase_fold_one (period period_derivative reference_epoch t : ℚ) : ℚ :=
  let dt := t - reference_epoch
  pymod (dt - 1 / 2 * period_derivative / period * dt ^ 2) period / period

/-- `phase_fold(time, period, period_derivative=0, reference_epoch=None)`
from `timeseries.py`.  If `reference_epoch` is `None` it defaults to
`np.min(time)`.  The source performs no validation of `period`. -/
def phase_fold (time : List ℚ) (period : ℚ) (period_derivative : ℚ)
    (reference_epoch : Option ℚ) : List ℚ :=
  let t0 := reference_epoch.getD (listMin time)
  time.map (phase_fold_one period period_derivative t0)

/-- One observation as seen by the binning loop: its folded phase and its
(possibly non-finite) flux and flux error. -/
structure Obs where
  phase : ℚ
  flux : Option ℚ
  err : Option ℚ
deriving DecidableEq, Repr

/-- The `valid` mask of `bin_phase_folded_data`:
`(bin_flux_err > 0) & np.isfinite(bin_flux_err) & np.isfinite(bin_flux)`.
(`NaN > 0` is false in numpy, matching the `none` cases here.) -/
def validOb (o : Obs) : Bool :=
  match o.err, o.flux with
  | some e, some _ => decide (0 < e)
  | _, _ => false

/-- Flux of an observation; only ever used on observations passing
`validOb`, where the flux is finite. -/
def obFlux (o : Obs) : ℚ := o.flux.getD 0

/-- Flux error of an observation; only ever used on observations passing
`validOb`, where the error is finite. -/
def obErr (o : Obs) : ℚ := o.err.getD 0

/-- `np.linspace(0, 1, num_bins + 1)[i]`, exactly `i / num_bins`. -/
def binEdge (num_bins i : ℕ) : ℚ := (i : ℚ) / (num_bins : ℚ)

/-- `bin_centers = 0.5 * (bin_edges[:-1] + bin_edges[1:])`. -/
def binCenter (num_bins i : ℕ) : ℚ := (binEdge num_bins i + binEdge num_bins (i + 1)) / 2

/-- The bin membership mask `(phases >= phase_min) & (phases < phase_max)`
for bin `i`. -/
def inBinb (num_bins i : ℕ) (p : ℚ) : Bool :=
  decide (binEdge num_bins i ≤ p) && decide (p < binEdge num_bins (i + 1))

/-- A row of the `binned_lc` array: `[phase_center, flux, flux_err]`,
with `none` for NaN and the error stored squared (see the header). -/
structure BinRow where
  phase : ℚ
  flux : Option ℚ
  fluxErrSq : Option ℚ
deriving DecidableEq, Repr

/-- The `[phase_center, np.nan, np.nan]` row appended for an empty or
all-invalid bin. -/
def nanRow (c : ℚ) : BinRow := ⟨c, none, none⟩

/-- The body of the per-bin loop of `bin_phase_folded_data` for bin `i`:
select observations in `[phase_min, phase_max)`; if none, emit NaN;
filter by the `valid` mask; if none remain, emit NaN; otherwise the
inverse-variance weighted mean and error. -/
def binRow (num_bins : ℕ) (obs : List Obs) (i : ℕ) : BinRow :=
  let inb := obs.filter (fun o => inBinb num_bins i o.phase)
  if inb.isEmpty then nanRow (binCenter num_bins i)
  else
    let valid := inb.filter validOb
    if valid.isEmpty then nanRow (binCenter num_bins i)
    else
      let weights := valid.map (fun o => 1 / (obErr o) ^ 2)
      let weighted_mean := (List.zipWith (fun o w => obFlux o * w) valid weights).sum / weights.sum
      let weighted_err_sq := 1 / weights.sum
      ⟨binCenter num_bins i, some weighted_mean, some weighted_err_sq⟩

/-- The whole per-bin loop: one `BinRow` for each of the `num_bins`
bins, in ascending bin order (the state of `binned_lc` just after the
loop, before normalization and cycle replication). -/
def bin_core (obs : List Obs) (num_bins : ℕ) : List BinRow :=
  (List.range num_bins).map (binRow num_bins obs)

/-- `normalization.lower()`: per-character lowercasing (`Char.toLower`,
ASCII case folding, which agrees with Python's `str.lower()` on the
method keys involved).  Implemented over the underlying character list
so that concrete instances evaluate by reduction. -/
def strLower (s : String) : String := ⟨s.data.map Char.toLower⟩

/-- The `norm_methods` dictionary lookup composed with the statistic:
`some` of the statistic for a recognized (already lowercased) key,
`none` for an unknown key. -/
def normFactor (method : String) (l : List ℚ) : Option ℚ :=
  if method = "median" then some (npMedian l)
  else if method = "min" then some (listMin l)
  else if method = "max" then some (listMax l)
  else if method = "mean" then some (npMean l)
  else none

/-- The `if normalization:` block of `bin_phase_folded_data`.
`none` models `normalization=False`; a Python string is falsy exactly
when empty, hence the `s = ""` case.  Note the source checks for an
empty `valid_flux` (raising "No valid flux values", `noValidData`)
before checking whether the method is recognized.  The source performs
no check on the computed factor: a zero factor is divided by silently
(in `ℚ` the quotients collapse to `0`; numpy would emit non-finite
values, equally without raising). -/
def apply_normalization (rows : List BinRow) (normalization : Option String) :
    Except Err (List BinRow) :=
  match normalization with
  | none => .ok rows
  | some s =>
    if s = "" then .ok rows
    else
      let valid_flux := rows.filterMap (fun r => r.flux)
      if valid_flux.isEmpty then .error .noValidData
      else
        match normFactor (strLower s) valid_flux with
        | none => .error .invalidNormalization
        | some norm_factor =>
          .ok (rows.map (fun r =>
            ⟨r.phase, r.flux.map (fun f => f / norm_factor),
              r.fluxErrSq.map (fun e2 => e2 / norm_factor ^ 2)⟩))

/-- `cycle_prev[:, 0] -= 1.0` / `cycle_next[:, 0] += 1.0`: shift the
phase of a copied row, leaving flux and flux error untouched. -/
def shiftPhase (d : ℚ) (r : BinRow) : BinRow := ⟨r.phase + d, r.flux, r.fluxErrSq⟩

/-- The cycle-replication block of `bin_phase_folded_data`:
`num_cycles=1` unchanged, `=2` prepend a copy shifted by `-1`, `=3`
prepend a `-1`-shifted copy and append a `+1`-shifted copy, anything
else raises `ValueError` (`invalidCycleCount`). -/
def replicate_cycles (rows : List BinRow) (num_cycles : ℤ) : Except Err (List BinRow) :=
  if num_cycles = 1 then .ok rows
  else if num_cycles = 2 then .ok (rows.map (shiftPhase (-1)) ++ rows)
  else if num_cycles = 3 then
    .ok (rows.map (shiftPhase (-1)) ++ rows ++ rows.map (shiftPhase 1))
  else .error .invalidCycleCount

/-- The returned dictionary `{'phase': ..., 'flux': ..., 'flux_err': ...}`
(with the error column stored squared, see the header). -/
structure BinnedLC where
  phase : List ℚ
  flux : List (Option ℚ)
  fluxErrSq : List (Option ℚ)
deriving DecidableEq, Repr

/-- Split the final row list into the three returned columns. -/
def toBinnedLC (rows : List BinRow) : BinnedLC :=
  ⟨rows.map (fun r => r.phase), rows.map (fun r => r.flux), rows.map (fun r => r.fluxErrSq)⟩

/-- Zip the folded phases with the parallel flux / flux-error arrays into
observation records (the arrays are index-aligned in the source). -/
def mkObs (phases : List ℚ) (flux fluxErr : List (Option ℚ)) : List Obs :=
  (phases.zip (flux.zip fluxErr)).map (fun p => ⟨p.1, p.2.1, p.2.2⟩)

/-- `bin_phase_folded_data` from `timeseries.py`: phase-fold, bin with
inverse-variance weighting, optionally normalize, then replicate cycles. -/
def bin_phase_folded_data (time : List ℚ) (flux fluxErr : List (Option ℚ))
    (period period_derivative : ℚ) (reference_epoch : Option ℚ)
    (num_bins : ℕ) (num_cycles : ℤ) (normalization : Option String) :
    Except Err BinnedLC :=
  let phases := phase_fold time period period_derivative reference_epoch
  let rows := bin_core (mkObs phases flux fluxErr) num_bins
  match apply_normalization rows normalization with
  | .error e => .error e
  | .ok rows2 =>
    match replicate_cycles rows2 num_cycles with
    | .error e => .error e
    | .ok rows3 => .ok (toBinnedLC rows3)

/-- Shift every phase of a binned curve by `d` (flux columns untouched). -/
def shiftLC (d : ℚ) (lc : BinnedLC) : BinnedLC :=
  ⟨lc.phase.map (fun p => p + d), lc.flux, lc.fluxErrSq⟩

/-- Concatenate two binned curves column-wise (`np.vstack` then column
split). -/
def catLC (a b : BinnedLC) : BinnedLC :=
  ⟨a.phase ++ b.phase, a.flux ++ b.flux, a.fluxErrSq ++ b.fluxErrSq⟩

/-- One row of a `.result` file as parsed by `pd.read_csv` with columns
`["gid", "pow", "snr", "wid", "per_day", "per_min", "q", "phi0", "dphi", "epo"]`
(`bls.py`). -/
structure RawBLSRow where
  gid : ℕ
  pow : ℚ
  snr : ℚ
  wid : ℚ
  per_day : ℚ
  per_min : ℚ
  q : ℚ
  phi0 : ℚ
  dphi : ℚ
  epo : ℚ
deriving DecidableEq, Repr

/-- A catalog record after `load_catalog`: the row with `gid` moved into
the index. -/
structure BLSRec where
  pow : ℚ
  snr : ℚ
  wid : ℚ
  per_day : ℚ
  per_min : ℚ
  q : ℚ
  phi0 : ℚ
  dphi : ℚ
  epo : ℚ
deriving DecidableEq, Repr

/-- `load_catalog` from `bls.py`: concatenate the parsed `.result`
files, overwrite `per_day` with `per_min / 1440` ("Recompute per_day
from per_min for better precision"), and index by `gid`.  The parsing
itself (`pd.read_csv`) is the external collaborator; `files` is the list
of already-parsed files in sorted order. -/
def load_catalog (files : List (List RawBLSRow)) : List (ℕ × BLSRec) :=
  files.flatten.map (fun r =>
    (r.gid, ⟨r.pow, r.snr, r.wid, r.per_min / 1440, r.per_min, r.q, r.phi0, r.dphi, r.epo⟩))

/-- `get_bls_stats` from `bls.py`: `df.loc[source_id]` when
`source_id in df.index`, else `None`.  (`df.loc` on a duplicated index
returns every matching row; the embedding returns the first, which is
the only case exercised here.) -/
def get_bls_stats (catalog : List (ℕ × BLSRec)) (source_id : ℕ) : Option BLSRec :=
  match catalog.find? (fun p => p.1 == source_id) with
  | some p => some p.2
  | none => none

/-- The parsed and barycentric-corrected observation series returned by
`read_lightcurve`: parallel `time` / `flux` / `flux_err` / `filter`
columns plus the sky position.  File parsing (`pd.read_csv`) and
`bjd_convert` (astropy) are the external collaborators folded into the
abstract file store `files` below. -/
structure LCData where
  time : List ℚ
  flux : List (Option ℚ)
  fluxErr : List (Option ℚ)
  filter : List String
  ra : ℚ
  dec : ℚ
deriving DecidableEq, Repr

/-- `read_lightcurve` from `io.py`: it calls `pd.read_csv(path, ...)`
with no `try`/`except`, so a missing or empty file raises
(`fileNotFound`); otherwise the parsed, corrected series is returned.
`files` maps a source id to the series its file parses to, `none` when
the file is missing or unreadable. -/
def read_lightcurve (files : ℕ → Option LCData) (source_id : ℕ) : Except Err LCData :=
  match files source_id with
  | none => .error .fileNotFound
  | some lc => .ok lc

/-- `read_bin_lightcurve` from `io.py` (the strict, non-checkpoint
copy): read the light curve (an exception propagates — the
`if lc_data is None: return None` guard is unreachable because
`read_lightcurve` never returns `None`), look up the period catalog
(`None` entry yields `None`), then bin the whole series with
`period = bls_data['per_day']` and `reference_epoch = bls_data['epo']`. -/
def read_bin_lightcurve (files : ℕ → Option LCData) (catalog : List (ℕ × BLSRec))
    (source_id : ℕ) (num_bins : ℕ) (num_cycles : ℤ) (normalization : Option String) :
    Except Err (Option BinnedLC) :=
  match read_lightcurve files source_id with
  | .error e => .error e
  | .ok lc_data =>
    match get_bls_stats catalog source_id with
    | none => .ok none
    | some bls_data =>
      match bin_phase_folded_data lc_data.time lc_data.flux lc_data.fluxErr
          bls_data.per_day 0 (some bls_data.epo) num_bins num_cycles normalization with
      | .error e => .error e
      | .ok binned_data => .ok (some binned_data)

/-- `read_lightcurve` from the `io-checkpoint.py` copy: identical except
that `FileNotFoundError` / `EmptyDataError` are caught and turned into
`None`. -/
def read_lightcurve_ckpt (files : ℕ → Option LCData) (source_id : ℕ) : Option LCData :=
  files source_id

/-- The boolean-mask band selection `lc_data['time'][c_mask]` (and the
flux / flux_err columns under the same mask), where
`c_mask = lc_data['filter'] == band`. -/
def bandSelect (lc : LCData) (band : String) :
    List ℚ × List (Option ℚ) × List (Option ℚ) :=
  let idx := (List.range lc.filter.length).filter (fun j => lc.filter.getD j "" == band)
  (idx.map (fun j => lc.time.getD j 0),
   idx.map (fun j => lc.flux.getD j none),
   idx.map (fun j => lc.fluxErr.getD j none))

/-- The returned dictionary `{"c": binned_c, "o": binned_o}`: the band
set is fixed by construction, neither key is ever omitted. -/
structure BandMap where
  c : BinnedLC
  o : BinnedLC
deriving DecidableEq, Repr

/-- `read_bin_lightcurve` from `io-checkpoint.py` (the tolerant copy):
`None` when the light curve cannot be read; `None` when neither a
catalog entry nor an explicit period exists; a catalog entry overrides
any explicitly passed period/epoch; then the `c` and `o` bands are
binned independently (an exception from either call propagates). -/
def read_bin_lightcurve_ckpt (files : ℕ → Option LCData) (catalog : List (ℕ × BLSRec))
    (source_id : ℕ) (num_bins : ℕ) (num_cycles : ℤ) (normalization : Option String)
    (period : Option ℚ) (reference_epoch : Option ℚ) : Except Err (Option BandMap) :=
  match read_lightcurve_ckpt files source_id with
  | none => .ok none
  | some lc_data =>
    let go : ℚ → Option ℚ → Except Err (Option BandMap) := fun p epo =>
      let cSel := bandSelect lc_data "c"
      let oSel := bandSelect lc_data "o"
      match bin_phase_folded_data cSel.1 cSel.2.1 cSel.2.2 p 0 epo
          num_bins num_cycles normalization with
      | .error e => .error e
      | .ok binned_c =>
        match bin_phase_folded_data oSel.1 oSel.2.1 oSel.2.2 p 0 epo
            num_bins num_cycles normalization with
        | .error e => .error e
        | .ok binned_o => .ok (some ⟨binned_c, binned_o⟩)
    match get_bls_stats catalog source_id, period with
    | none, none => .ok none
    | none, some p => go p reference_epoch
    | some bls_data, _ => go bls_data.per_day (some bls_data.epo)

/-! ### Helper lemmas -/

theorem pymod_div_fract (a b : ℚ) (hb : b ≠ 0) : pymod a b / b = Int.fract (a / b) := by
  unfold pymod
  rw [Int.fract, sub_div, mul_comm, mul_div_assoc, div_self hb, mul_one]

theorem phase_fold_one_zero_pd (period t0 t : ℚ) :
    phase_fold_one period 0 t0 t = pymod (t - t0) period / period := by
  simp [phase_fold_one]

theorem phase_fold_one_mem_Ico (period t0 t : ℚ) (hp : period ≠ 0) :
    0 ≤ phase_fold_one period 0 t0 t ∧ phase_fold_one period 0 t0 t < 1 := by
  rw [phase_fold_one_zero_pd, pymod_div_fract _ _ hp]
  exact ⟨Int.fract_nonneg _, Int.fract_lt_one _⟩

theorem phase_fold_one_self (period t0 : ℚ) : phase_fold_one period 0 t0 t0 = 0 := by
  simp [phase_fold_one, pymod]

theorem foldl_min_mem (xs : List ℚ) (x : ℚ) :
    xs.foldl min x = x ∨ xs.foldl min x ∈ xs := by
  induction xs generalizing x with
  | nil => exact Or.inl rfl
  | cons y ys ih =>
    rcases ih (min x y) with h | h
    · rcases min_choice x y with hxy | hxy
      · exact Or.inl (by rw [List.foldl_cons, h, hxy])
      · exact Or.inr (by rw [List.foldl_cons, h, hxy]; exact List.mem_cons_self _ _)
    · exact Or.inr (List.mem_cons_of_mem _ h)

theorem listMin_mem (l : List ℚ) (h : l ≠ []) : listMin l ∈ l := by
  match l with
  | [] => exact absurd rfl h
  | x :: xs =>
    rcases foldl_min_mem xs x with h' | h'
    · rw [listMin, h']; exact List.mem_cons_self _ _
    · exact List.mem_cons_of_mem _ h'

theorem binRow_filter_valid (nb i : ℕ) (obs : List Obs) :
    binRow nb obs i = binRow nb (obs.filter validOb) i := by
  have hKK : (obs.filter validOb).filter (fun o => inBinb nb i o.phase)
      = (obs.filter (fun o => inBinb nb i o.phase)).filter validOb := by
    rw [List.filter_filter, List.filter_filter]
    exact List.filter_congr (fun o _ => Bool.and_comm _ _)
  have hKV : ((obs.filter (fun o => inBinb nb i o.phase)).filter validOb).filter validOb
      = (obs.filter (fun o => inBinb nb i o.phase)).filter validOb :=
    List.filter_eq_self.mpr (fun o ho => (List.mem_filter.mp ho).2)
  simp only [binRow]
  rw [hKK, hKV]
  by_cases hK : ((obs.filter (fun o => inBinb nb i o.phase)).filter validOb).isEmpty = true
  · rw [if_pos hK]
    by_cases h1 : (obs.filter (fun o => inBinb nb i o.phase)).isEmpty = true
    · rw [if_pos h1, if_pos hK]
    · rw [if_neg h1, if_pos hK]
  · have h1 : ¬ (obs.filter (fun o => inBinb nb i o.phase)).isEmpty = true := by
      intro h
      rw [List.isEmpty_iff] at h
      rw [h] at hK
      simp at hK
    rw [if_neg h1, if_neg hK, if_neg hK]

theorem binRow_two_valid (nb i : ℕ) (p1 p2 f1 f2 e1 e2 : ℚ)
    (h1 : inBinb nb i p1 = true) (h2 : inBinb nb i p2 = true)
    (he1 : 0 < e1) (he2 : 0 < e2) :
    binRow nb [⟨p1, some f1, some e1⟩, ⟨p2, some f2, some e2⟩] i
      = ⟨binCenter nb i,
          some ((f1 / e1 ^ 2 + f2 / e2 ^ 2) / (1 / e1 ^ 2 + 1 / e2 ^ 2)),
          some (1 / (1 / e1 ^ 2 + 1 / e2 ^ 2))⟩ := by
  have hv1 : validOb ⟨p1, some f1, some e1⟩ = true := by simp [validOb, he1]
  have hv2 : validOb ⟨p2, some f2, some e2⟩ = true := by simp [validOb, he2]
  simp only [binRow, List.filter_cons, h1, h2, hv1, hv2, List.filter_nil, if_true,
    List.isEmpty_cons, List.map_cons, List.map_nil, List.zipWith_cons_cons, List.zipWith_nil_right,
    List.sum_cons, List.sum_nil, obFlux, obErr, Option.getD_some]
  norm_num
  ring_nf

theorem binRow_phase (nb : ℕ) (obs : List Obs) (i : ℕ) :
    (binRow nb obs i).phase = binCenter nb i := by
  simp only [binRow]
  split
  · rfl
  · split
    · rfl
    · rfl

theorem bin_core_getD (obs : List Obs) (nb i : ℕ) (d : BinRow) (hi : i < nb) :
    (bin_core obs nb).getD i d = binRow nb obs i := by
  simp [bin_core, List.getD_eq_getElem?_getD, List.getElem?_map, List.getElem?_range, hi]

theorem binCenter_eq (nb i : ℕ) : binCenter nb i = (2 * (i : ℚ) + 1) / (2 * (nb : ℚ)) := by
  unfold binCenter binEdge
  by_cases h : (nb : ℚ) = 0
  · push_cast
    simp [h]
  · push_cast
    field_simp
    ring

theorem binRow_all_invalid (nb i : ℕ) (obs : List Obs)
    (h : ∀ o ∈ obs, inBinb nb i o.phase = true → validOb o = false) :
    binRow nb obs i = nanRow (binCenter nb i) := by
  have hval : (obs.filter (fun o => inBinb nb i o.phase)).filter validOb = [] := by
    rw [List.filter_eq_nil_iff]
    intro o ho
    have hm := List.mem_filter.mp ho
    simp [h o hm.1 hm.2]
  simp only [binRow]
  split
  · rfl
  · simp [hval]

theorem inBinb_one_false (nb i : ℕ) (hi : i < nb) : inBinb nb i (1 : ℚ) = false := by
  have hnb : (0 : ℚ) < (nb : ℚ) := by exact_mod_cast Nat.pos_of_ne_zero (by omega)
  have hle : ((i : ℚ) + 1) / (nb : ℚ) ≤ 1 := by
    rw [div_le_one hnb]
    exact_mod_cast Nat.succ_le_of_lt hi
  simp [inBinb, binEdge]
  intro _
  exact hle

theorem toBinnedLC_append (a b : List BinRow) :
    toBinnedLC (a ++ b) = catLC (toBinnedLC a) (toBinnedLC b) := by
  simp [toBinnedLC, catLC]

theorem toBinnedLC_shift (d : ℚ) (rows : List BinRow) :
    toBinnedLC (rows.map (shiftPhase d)) = shiftLC d (toBinnedLC rows) := by
  simp [toBinnedLC, shiftLC, shiftPhase, List.map_map, Function.comp]

theorem apply_normalization_length (rows : List BinRow) (norm : Option String)
    (r2 : List BinRow) (h : apply_normalization rows norm = .ok r2) :
    r2.length = rows.length := by
  cases norm with
  | none =>
    simp only [apply_normalization] at h
    injection h with h
    rw [← h]
  | some s =>
    simp only [apply_normalization] at h
    by_cases hs : s = ""
    · rw [if_pos hs] at h
      injection h with h
      rw [← h]
    · rw [if_neg hs] at h
      by_cases he : (rows.filterMap (fun r => r.flux)).isEmpty = true
      · rw [if_pos he] at h
        exact absurd h (by simp)
      · rw [if_neg he] at h
        cases hnf : normFactor (strLower s) (rows.filterMap fun r => r.flux) with
        | none =>
          rw [hnf] at h
          exact absurd h (by simp)
        | some nf =>
          rw [hnf] at h
          injection h with h
          rw [← h]
          simp

theorem replicate_cycles_ok (rows r3 : List BinRow) (nc : ℤ)
    (h : replicate_cycles rows nc = .ok r3) :
    (nc = 1 ∧ r3 = rows) ∨ (nc = 2 ∧ r3 = rows.map (shiftPhase (-1)) ++ rows)
      ∨ (nc = 3 ∧ r3 = rows.map (shiftPhase (-1)) ++ rows ++ rows.map (shiftPhase 1)) := by
  unfold replicate_cycles at h
  split_ifs at h with h1 h2 h3
  · injection h with h
    exact Or.inl ⟨h1, h.symm⟩
  · injection h with h
    exact Or.inr (Or.inl ⟨h2, h.symm⟩)
  · injection h with h
    exact Or.inr (Or.inr ⟨h3, h.symm⟩)

theorem bin_core_length (obs : List Obs) (nb : ℕ) : (bin_core obs nb).length = nb := by
  simp [bin_core]

/-! ### Claim theorems -/

/-- C1: for a non-empty time array, period `P > 0` and zero period
derivative, every phase returned by `phase_fold` lies in `[0, 1)` (for
any reference epoch, including the omitted one defaulting to
`min(time)`); the phase of the element equal to the reference epoch is
exactly `0`; and a time `ε` before the reference epoch (`0 < ε < P`)
folds to `1 - ε/P`, a value near `1` and never negative. -/
theorem phase_fold_unit_interval (time : List ℚ) (period : ℚ)
    (_hne : time ≠ []) (hp : 0 < period) :
    (∀ epoch : Option ℚ, ∀ ph ∈ phase_fold time period 0 epoch, 0 ≤ ph ∧ ph < 1)
    ∧ (∀ t0 : ℚ, phase_fold_one period 0 t0 t0 = 0)
    ∧ (∀ i : ℕ, time[i]? = some (listMin time) →
        (phase_fold time period 0 none)[i]? = some 0)
    ∧ (∀ t0 ε : ℚ, 0 < ε → ε < period →
        phase_fold [t0 - ε] period 0 (some t0) = [1 - ε / period]
        ∧ 0 ≤ 1 - ε / period) := by
  have hp0 : period ≠ 0 := ne_of_gt hp
  refine ⟨?_, fun t0 => phase_fold_one_self period t0, ?_, ?_⟩
  · intro epoch ph hph
    rcases List.mem_map.mp hph with ⟨t, _, rfl⟩
    exact phase_fold_one_mem_Ico period _ t hp0
  · intro i hi
    have : (phase_fold time period 0 none)[i]? = time[i]?.map (phase_fold_one period 0 (listMin time)) := by
      simp [phase_fold]
    rw [this, hi, Option.map_some']
    rw [phase_fold_one_self]
  · intro t0 ε hε hεp
    have hfrac : phase_fold_one period 0 t0 (t0 - ε) = 1 - ε / period := by
      rw [phase_fold_one_zero_pd, pymod_div_fract _ _ hp0]
      have hquot : (t0 - ε - t0) / period = -(ε / period) := by ring
      rw [hquot]
      have h1 : 0 < ε / period := div_pos hε hp
      have h2 : ε / period < 1 := (div_lt_one hp).mpr hεp
      have hfloor : ⌊-(ε / period)⌋ = -1 := by
        rw [Int.floor_eq_iff]
        constructor
        · push_cast
          linarith
        · push_cast
          linarith
      rw [Int.fract, hfloor]
      push_cast
      ring
    refine ⟨?_, ?_⟩
    · simp [phase_fold, hfrac]
    · have h2 : ε / period < 1 := (div_lt_one hp).mpr hεp
      linarith

/-- Witness for C1 at `time = [3, 5]`, `period = 2`: the minimum time
sits at index 0 and folds to phase `0`. -/
theorem phase_fold_unit_interval_witness :
    (phase_fold [3, 5] 2 0 none)[0]? = some 0 :=
  (phase_fold_unit_interval [3, 5] 2 (by decide) (by decide)).2.2.1 0 (by decide)

/-- C5 counterexample: `phase_fold` (and `bin_phase_folded_data`) accept
`period = -2 < 0` and silently produce output — there is no
`InvalidPeriod` check anywhere in the code. -/
theorem negative_period_no_error :
    phase_fold [0, 1] (-2) 0 none = [0, 1/2]
    ∧ bin_phase_folded_data [0, 1] [some 1, some 1] [some 1, some 1] (-2) 0 none 2 1 none
      = .ok ⟨[1/4, 3/4], [some 1, some 1], [some 1, some 1]⟩ := by
  constructor
  · norm_num [phase_fold, phase_fold_one, pymod, listMin]
  · norm_num [bin_phase_folded_data, phase_fold, phase_fold_one, pymod, listMin, mkObs,
      bin_core, binRow, inBinb, binEdge, binCenter, validOb, obFlux, obErr, nanRow,
      apply_normalization, replicate_cycles, toBinnedLC, List.range_succ]

/-- C5 amended: `phase_fold` performs no validation of the period.  For
`period < 0` it silently returns phases — still in `[0, 1)`, because
Python's modulo follows the divisor's sign — and `bin_phase_folded_data`
likewise completes normally (shown here for the default
`normalization=False` and `num_cycles=1`) instead of failing with
`InvalidPeriod`. -/
theorem phase_fold_no_period_validation (time : List ℚ) (flux fluxErr : List (Option ℚ))
    (period : ℚ) (hp : period < 0) (_hne : time ≠ []) (num_bins : ℕ) :
    (∀ epoch : Option ℚ, ∀ ph ∈ phase_fold time period 0 epoch, 0 ≤ ph ∧ ph < 1)
    ∧ bin_phase_folded_data time flux fluxErr period 0 none num_bins 1 none
      = .ok (toBinnedLC (bin_core (mkObs (phase_fold time period 0 none) flux fluxErr) num_bins)) := by
  have hp0 : period ≠ 0 := ne_of_lt hp
  refine ⟨?_, rfl⟩
  intro epoch ph hph
  rcases List.mem_map.mp hph with ⟨t, _, rfl⟩
  exact phase_fold_one_mem_Ico period _ t hp0

/-- Witness for the amended C5 at a concrete negative period. -/
theorem phase_fold_no_period_validation_witness :
    bin_phase_folded_data [0, 1] [some 1, some 1] [some 1, some 1] (-2) 0 none 2 1 none
      = .ok (toBinnedLC (bin_core (mkObs (phase_fold [0, 1] (-2) 0 none)
          [some 1, some 1] [some 1, some 1]) 2)) :=
  (phase_fold_no_period_validation [0, 1] [some 1, some 1] [some 1, some 1] (-2)
    (by decide) (by decide) 2).2

/-- C2: the per-bin computation of `bin_phase_folded_data` first
discards invalid observations (non-positive or non-finite error,
non-finite flux) — filtering the input down to the valid observations
changes nothing — and then takes the inverse-variance weighted mean:
for a bin holding exactly the two valid observations `(f1, e1)` and
`(f2, e2)`, the bin flux is `(f1/e1²+f2/e2²)/(1/e1²+1/e2²)` and the bin
error is `1/sqrt(1/e1²+1/e2²)` (stated on its square, the
representation used by the embedding). -/
theorem bin_weighted_mean_spec (nb i : ℕ) (obs : List Obs)
    (p1 p2 f1 f2 e1 e2 : ℚ)
    (h1 : inBinb nb i p1 = true) (h2 : inBinb nb i p2 = true)
    (he1 : 0 < e1) (he2 : 0 < e2) :
    binRow nb obs i = binRow nb (obs.filter validOb) i
    ∧ binRow nb [⟨p1, some f1, some e1⟩, ⟨p2, some f2, some e2⟩] i
      = ⟨binCenter nb i,
          some ((f1 / e1 ^ 2 + f2 / e2 ^ 2) / (1 / e1 ^ 2 + 1 / e2 ^ 2)),
          some (1 / (1 / e1 ^ 2 + 1 / e2 ^ 2))⟩ :=
  ⟨binRow_filter_valid nb i obs, binRow_two_valid nb i p1 p2 f1 f2 e1 e2 h1 h2 he1 he2⟩

/-- Witness for C2: two observations with fluxes 10, 20 and errors 1, 2
in the first of two bins give weighted mean 12 and squared error 4/5. -/
theorem bin_weighted_mean_spec_witness :
    binRow 2 [⟨0, some 10, some 1⟩, ⟨(1 : ℚ)/4, some 20, some 2⟩] 0
      = ⟨binCenter 2 0,
          some ((10 / 1 ^ 2 + 20 / 2 ^ 2) / (1 / 1 ^ 2 + 1 / 2 ^ 2)),
          some (1 / (1 / 1 ^ 2 + 1 / 2 ^ 2))⟩ :=
  (bin_weighted_mean_spec 2 0 [] 0 ((1 : ℚ)/4) 10 20 1 2
    (by norm_num [inBinb, binEdge]) (by norm_num [inBinb, binEdge])
    (by norm_num) (by norm_num)).2

/-- C3: before replication, `bin_phase_folded_data` always emits exactly
`num_bins` rows; row `i`'s phase center is the midpoint `(2i+1)/(2·num_bins)`
of the half-open interval `[i/num_bins, (i+1)/num_bins)`; consecutive
centers ascend uniformly by `1/num_bins`; and a bin containing zero
valid observations (in particular one whose observations all have NaN
errors) gets NaN flux and flux error while keeping its phase center —
no bin is ever dropped. -/
theorem bin_grid_and_empty_bins (obs : List Obs) (nb : ℕ) :
    (bin_core obs nb).length = nb
    ∧ (∀ i, i < nb →
        ((bin_core obs nb).getD i (nanRow 0)).phase = (2 * (i : ℚ) + 1) / (2 * (nb : ℚ)))
    ∧ (∀ i, i + 1 < nb →
        ((bin_core obs nb).getD (i + 1) (nanRow 0)).phase
          - ((bin_core obs nb).getD i (nanRow 0)).phase = 1 / (nb : ℚ))
    ∧ (∀ i, i < nb → (∀ o ∈ obs, inBinb nb i o.phase = true → validOb o = false) →
        (bin_core obs nb).getD i (nanRow 0) = nanRow (binCenter nb i)) := by
  refine ⟨by simp [bin_core], ?_, ?_, ?_⟩
  · intro i hi
    rw [bin_core_getD obs nb i _ hi, binRow_phase, binCenter_eq]
  · intro i hi
    have hi0 : i < nb := by omega
    have hnb : (0 : ℚ) < (nb : ℚ) := by exact_mod_cast (by omega : 0 < nb)
    rw [bin_core_getD obs nb (i + 1) _ hi, bin_core_getD obs nb i _ hi0,
      binRow_phase, binRow_phase, binCenter_eq, binCenter_eq]
    push_cast
    rw [div_sub_div_same]
    rw [show 2 * ((i : ℚ) + 1) + 1 - (2 * (i : ℚ) + 1) = 2 by ring]
    rw [div_eq_div_iff (by linarith) (by linarith)]
    ring
  · intro i hi hinv
    rw [bin_core_getD obs nb i _ hi]
    exact binRow_all_invalid nb i obs hinv

/-- Witness for C3: a single observation with NaN error leaves bin 0 of
2 as a NaN row with its phase center intact. -/
theorem bin_grid_and_empty_bins_witness :
    (bin_core [⟨0, some 1, none⟩] 2).getD 0 (nanRow 0) = nanRow (binCenter 2 0) :=
  (bin_grid_and_empty_bins [⟨0, some 1, none⟩] 2).2.2.2 0 (by omega)
    (fun o ho _ => by
      rcases List.mem_singleton.mp ho with rfl
      rfl)

/-- C9: an observation whose folded phase is exactly `1.0` fails the
half-open `[phase_min, phase_max)` membership test of every bin
(including the last), so it contributes to no bin: deleting it from the
observation list leaves every bin of the pre-replication output
unchanged. -/
theorem phase_one_excluded (nb : ℕ) (pre post : List Obs) (o : Obs) (ho : o.phase = 1) :
    (∀ i, i < nb → inBinb nb i o.phase = false)
    ∧ bin_core (pre ++ o :: post) nb = bin_core (pre ++ post) nb := by
  have hfalse : ∀ i, i < nb → inBinb nb i o.phase = false := by
    intro i hi
    rw [ho]
    exact inBinb_one_false nb i hi
  refine ⟨hfalse, ?_⟩
  unfold bin_core
  apply List.map_congr_left
  intro i hi
  have hi' : i < nb := List.mem_range.mp hi
  have hfil : (pre ++ o :: post).filter (fun x => inBinb nb i x.phase)
      = (pre ++ post).filter (fun x => inBinb nb i x.phase) := by
    rw [List.filter_append, List.filter_append,
      List.filter_cons_of_neg (by simp [hfalse i hi'])]
  simp only [binRow, hfil]

/-- Witness for C9: with 2 bins, an observation at phase exactly 1 is
outside bin 0 (and, by the theorem, outside every bin). -/
theorem phase_one_excluded_witness :
    inBinb 2 0 (Obs.mk 1 (some 5) (some 1)).phase = false :=
  (phase_one_excluded 2 [] [] ⟨1, some 5, some 1⟩ rfl).1 0 (by omega)

/-- C4: with `num_cycles=1` the output is the un-replicated binned
curve; `num_cycles=2` prepends a copy of it shifted by `-1` in phase;
`num_cycles=3` concatenates the `-1`-shifted copy, the unshifted block
and the `+1`-shifted copy in that order, flux and flux error columns
copied unchanged; every successful output has
`num_bins * num_cycles` entries per column; and a `num_cycles` outside
`{1, 2, 3}` fails with `InvalidCycleCount` (stated for the default
`normalization=False`: a failing normalization runs earlier in the
source and takes precedence). -/
theorem cycle_replication_spec (time : List ℚ) (flux fluxErr : List (Option ℚ))
    (period pd : ℚ) (epoch : Option ℚ) (nb : ℕ) (norm : Option String) :
    (bin_phase_folded_data time flux fluxErr period pd epoch nb 2 norm
      = Except.map (fun o => catLC (shiftLC (-1) o) o)
          (bin_phase_folded_data time flux fluxErr period pd epoch nb 1 norm))
    ∧ (bin_phase_folded_data time flux fluxErr period pd epoch nb 3 norm
      = Except.map (fun o => catLC (catLC (shiftLC (-1) o) o) (shiftLC 1 o))
          (bin_phase_folded_data time flux fluxErr period pd epoch nb 1 norm))
    ∧ (∀ nc : ℤ, ∀ out,
        bin_phase_folded_data time flux fluxErr period pd epoch nb nc norm = .ok out →
        out.phase.length = nb * nc.toNat ∧ out.flux.length = nb * nc.toNat
          ∧ out.fluxErrSq.length = nb * nc.toNat)
    ∧ (∀ nc : ℤ, nc ≠ 1 → nc ≠ 2 → nc ≠ 3 →
        bin_phase_folded_data time flux fluxErr period pd epoch nb nc none
          = .error .invalidCycleCount) := by
  refine ⟨?_, ?_, ?_, ?_⟩
  · simp only [bin_phase_folded_data]
    cases h : apply_normalization
        (bin_core (mkObs (phase_fold time period pd epoch) flux fluxErr) nb) norm with
    | error e => simp [Except.map]
    | ok r2 =>
      simp only [replicate_cycles]
      norm_num
      rw [toBinnedLC_append, toBinnedLC_shift]
      simp [Except.map]
  · simp only [bin_phase_folded_data]
    cases h : apply_normalization
        (bin_core (mkObs (phase_fold time period pd epoch) flux fluxErr) nb) norm with
    | error e => simp [Except.map]
    | ok r2 =>
      simp only [replicate_cycles]
      norm_num
      rw [toBinnedLC_append, toBinnedLC_append, toBinnedLC_shift, toBinnedLC_shift]
      simp [Except.map, catLC, List.append_assoc]
  · intro nc out hout
    cases h : apply_normalization
        (bin_core (mkObs (phase_fold time period pd epoch) flux fluxErr) nb) norm with
    | error e =>
      simp only [bin_phase_folded_data, h] at hout
      exact Except.noConfusion hout
    | ok r2 =>
      simp only [bin_phase_folded_data, h] at hout
      have hlen : r2.length = nb := by
        rw [apply_normalization_length _ norm r2 h, bin_core_length]
      cases hrep : replicate_cycles r2 nc with
      | error e =>
        simp only [hrep] at hout
        exact Except.noConfusion hout
      | ok r3 =>
        simp only [hrep, Except.ok.injEq] at hout
        rcases replicate_cycles_ok r2 r3 nc hrep with ⟨hc, hr⟩ | ⟨hc, hr⟩ | ⟨hc, hr⟩ <;>
          subst hc <;> subst hr <;> rw [← hout] <;>
          simp [toBinnedLC, hlen] <;> ring
  · intro nc h1 h2 h3
    simp only [bin_phase_folded_data, apply_normalization, replicate_cycles,
      if_neg h1, if_neg h2, if_neg h3]

/-- Witness for C4: a concrete call with `num_cycles = 4` fails with
`InvalidCycleCount`. -/
theorem cycle_replication_spec_witness :
    bin_phase_folded_data [0] [some 1] [some 1] 1 0 none 2 4 none
      = .error .invalidCycleCount :=
  (cycle_replication_spec [0] [some 1] [some 1] 1 0 none 2 none).2.2.2 4
    (by decide) (by decide) (by decide)

/-- C6 counterexample: with a single valid observation of flux `0`, the
median normalization factor is `0`, yet `bin_phase_folded_data` does
not reject it — it silently divides and returns `ok` (numpy would emit
non-finite values, equally without raising; in `ℚ` the quotients
collapse to `0`). -/
theorem zero_norm_factor_not_rejected :
    bin_phase_folded_data [0] [some 0] [some 1] 1 0 none 1 1 (some "median")
      = .ok ⟨[1/2], [some 0], [some 0]⟩ := by
  norm_num [bin_phase_folded_data, phase_fold, phase_fold_one, pymod, listMin, mkObs,
    bin_core, binRow, inBinb, binEdge, binCenter, validOb, obFlux, obErr, nanRow,
    apply_normalization, normFactor, npMedian, List.insertionSort, List.orderedInsert,
    replicate_cycles, toBinnedLC, List.range_succ,
    show strLower "median" = "median" from by decide,
    show ("median" : String) ≠ "" from by decide]
  simp

/-- C6 amended: a truthy (non-empty) normalization string that is not
one of `{median, min, max, mean}` after lowercasing fails with
`InvalidNormalization`, provided at least one finite binned flux value
exists; with zero finite binned flux values the call fails with
`NoValidData` (this check runs first, whatever the method string); but
a recognized method is *never* rejected on account of its computed
factor — whenever the lookup succeeds (in particular when the factor is
`0`) the call returns `ok` with every bin's flux and flux error divided
by the factor. -/
theorem normalization_error_policy (rows : List BinRow) (s : String) (hs : s ≠ "") :
    ((rows.filterMap (fun r => r.flux)).isEmpty = true →
      apply_normalization rows (some s) = .error .noValidData)
    ∧ ((rows.filterMap (fun r => r.flux)).isEmpty = false →
        strLower s ∉ (["median", "min", "max", "mean"] : List String) →
        apply_normalization rows (some s) = .error .invalidNormalization)
    ∧ (∀ nf, (rows.filterMap (fun r => r.flux)).isEmpty = false →
        normFactor (strLower s) (rows.filterMap (fun r => r.flux)) = some nf →
        apply_normalization rows (some s)
          = .ok (rows.map (fun r =>
              ⟨r.phase, r.flux.map (fun f => f / nf),
                r.fluxErrSq.map (fun e2 => e2 / nf ^ 2)⟩))) := by
  refine ⟨?_, ?_, ?_⟩
  · intro hemp
    simp [apply_normalization, if_neg hs, hemp]
  · intro hemp hmem
    simp only [List.mem_cons, List.not_mem_nil, or_false, not_or] at hmem
    obtain ⟨h1, h2, h3, h4⟩ := hmem
    have hnf : normFactor (strLower s) (rows.filterMap (fun r => r.flux)) = none := by
      simp [normFactor, h1, h2, h3, h4]
    simp [apply_normalization, if_neg hs, hemp, hnf]
  · intro nf hemp hnf
    simp [apply_normalization, if_neg hs, hemp, hnf]

/-- Witness for the amended C6: the unrecognized key `"bogus"` fails
with `InvalidNormalization` when a finite flux value is present. -/
theorem normalization_error_policy_witness :
    apply_normalization [⟨1/2, some 2, some 1⟩] (some "bogus") = .error .invalidNormalization :=
  (normalization_error_policy [⟨1/2, some 2, some 1⟩] "bogus" (by decide)).2.1
    (by decide) (by decide)

/-- C7 counterexample: in `io.py`, `read_lightcurve` has no
`try`/`except`, so for a missing light-curve file
`read_bin_lightcurve` propagates the `FileNotFoundError` instead of
yielding `None`. -/
theorem missing_lightcurve_raises :
    read_bin_lightcurve (fun _ => none) [] 0 4 1 none = .error .fileNotFound := rfl

/-- C7 amended: `get_bls_stats` resolves a missing catalog key to
`None` rather than throwing, and `read_bin_lightcurve` (io.py) yields
`None` when no period is available for a source whose light curve
loads; but when the light curve itself cannot be obtained the
`FileNotFoundError` from `pandas.read_csv` propagates — only the
checkpoint copy of the reader converts it to `None`. -/
theorem missing_data_absence_policy (files : ℕ → Option LCData) (catalog : List (ℕ × BLSRec))
    (source_id : ℕ) (nb : ℕ) (nc : ℤ) (norm : Option String) :
    ((∀ p ∈ catalog, p.1 ≠ source_id) → get_bls_stats catalog source_id = none)
    ∧ (∀ lc, files source_id = some lc → get_bls_stats catalog source_id = none →
        read_bin_lightcurve files catalog source_id nb nc norm = .ok none)
    ∧ (files source_id = none →
        read_bin_lightcurve files catalog source_id nb nc norm = .error .fileNotFound) := by
  refine ⟨?_, ?_, ?_⟩
  · intro h
    have hf : catalog.find? (fun p => p.1 == source_id) = none :=
      List.find?_eq_none.mpr (fun x hx => by simp [h x hx])
    simp [get_bls_stats, hf]
  · intro lc hfile hbls
    simp [read_bin_lightcurve, read_lightcurve, hfile, hbls]
  · intro hfile
    simp [read_bin_lightcurve, read_lightcurve, hfile]

/-- Witness for the amended C7: an empty catalog makes the orchestrator
yield `None` for a source whose light curve is present. -/
theorem missing_data_absence_policy_witness :
    read_bin_lightcurve (fun _ => some ⟨[0], [some 1], [some 1], ["o"], 0, 0⟩) [] 7 4 1 none
      = .ok none :=
  (missing_data_absence_policy (fun _ => some ⟨[0], [some 1], [some 1], ["o"], 0, 0⟩)
    [] 7 4 1 none).2.1 ⟨[0], [some 1], [some 1], ["o"], 0, 0⟩ rfl rfl

theorem bpfd_norm_none_ok (t : List ℚ) (f e : List (Option ℚ)) (p pd : ℚ) (epo : Option ℚ)
    (nb : ℕ) (nc : ℤ) (hnc : nc = 1 ∨ nc = 2 ∨ nc = 3) :
    ∃ out, bin_phase_folded_data t f e p pd epo nb nc none = .ok out := by
  rcases hnc with rfl | rfl | rfl
  · exact ⟨_, rfl⟩
  · exact ⟨_, rfl⟩
  · exact ⟨_, rfl⟩

theorem binRow_nil (nb i : ℕ) : binRow nb [] i = nanRow (binCenter nb i) := rfl

theorem bin_core_nil_flux (nb : ℕ) :
    (bin_core ([] : List Obs) nb).map (fun r => r.flux) = List.replicate nb none := by
  rw [bin_core, List.map_map]
  rw [show ((fun r : BinRow => r.flux) ∘ binRow nb []) = (fun _ : ℕ => (none : Option ℚ)) from
    funext fun i => rfl]
  simp [List.map_const']

theorem bin_core_nil_errsq (nb : ℕ) :
    (bin_core ([] : List Obs) nb).map (fun r => r.fluxErrSq) = List.replicate nb none := by
  rw [bin_core, List.map_map]
  rw [show ((fun r : BinRow => r.fluxErrSq) ∘ binRow nb []) = (fun _ : ℕ => (none : Option ℚ)) from
    funext fun i => rfl]
  simp [List.map_const']

theorem bin_core_nil_shift_flux (nb : ℕ) (d : ℚ) :
    ((bin_core ([] : List Obs) nb).map (shiftPhase d)).map (fun r => r.flux)
      = List.replicate nb none := by
  rw [bin_core, List.map_map, List.map_map]
  rw [show (((fun r : BinRow => r.flux) ∘ shiftPhase d) ∘ binRow nb [])
      = (fun _ : ℕ => (none : Option ℚ)) from funext fun i => rfl]
  simp [List.map_const']

theorem bin_core_nil_shift_errsq (nb : ℕ) (d : ℚ) :
    ((bin_core ([] : List Obs) nb).map (shiftPhase d)).map (fun r => r.fluxErrSq)
      = List.replicate nb none := by
  rw [bin_core, List.map_map, List.map_map]
  rw [show (((fun r : BinRow => r.fluxErrSq) ∘ shiftPhase d) ∘ binRow nb [])
      = (fun _ : ℕ => (none : Option ℚ)) from funext fun i => rfl]
  simp [List.map_const']

theorem bpfd_empty_input (p pd : ℚ) (epo : Option ℚ) (nb : ℕ) (nc : ℤ)
    (hnc : nc = 1 ∨ nc = 2 ∨ nc = 3) :
    ∃ out, bin_phase_folded_data [] [] [] p pd epo nb nc none = .ok out
      ∧ out.flux = List.replicate (nb * nc.toNat) none
      ∧ out.fluxErrSq = List.replicate (nb * nc.toNat) none
      ∧ out.phase.length = nb * nc.toNat := by
  have hmk : mkObs (phase_fold [] p pd epo) [] [] = [] := rfl
  rcases hnc with rfl | rfl | rfl
  · refine ⟨_, rfl, ?_, ?_, ?_⟩
    · show (toBinnedLC (bin_core (mkObs (phase_fold [] p pd epo) [] []) nb)).flux = _
      rw [hmk]
      simp [toBinnedLC, bin_core_nil_flux]
    · show (toBinnedLC (bin_core (mkObs (phase_fold [] p pd epo) [] []) nb)).fluxErrSq = _
      rw [hmk]
      simp [toBinnedLC, bin_core_nil_errsq]
    · show (toBinnedLC (bin_core (mkObs (phase_fold [] p pd epo) [] []) nb)).phase.length = _
      rw [hmk]
      simp [toBinnedLC, bin_core]
  · refine ⟨_, rfl, ?_, ?_, ?_⟩
    · show (toBinnedLC ((bin_core (mkObs (phase_fold [] p pd epo) [] []) nb).map (shiftPhase (-1))
          ++ bin_core (mkObs (phase_fold [] p pd epo) [] []) nb)).flux = _
      rw [hmk]
      simp only [toBinnedLC, List.map_append, bin_core_nil_flux, bin_core_nil_shift_flux]
      rw [← List.replicate_add]
      congr 1
      rw [show (2 : ℤ).toNat = 2 from rfl]
      omega
    · show (toBinnedLC ((bin_core (mkObs (phase_fold [] p pd epo) [] []) nb).map (shiftPhase (-1))
          ++ bin_core (mkObs (phase_fold [] p pd epo) [] []) nb)).fluxErrSq = _
      rw [hmk]
      simp only [toBinnedLC, List.map_append, bin_core_nil_errsq, bin_core_nil_shift_errsq]
      rw [← List.replicate_add]
      congr 1
      rw [show (2 : ℤ).toNat = 2 from rfl]
      omega
    · show (toBinnedLC ((bin_core (mkObs (phase_fold [] p pd epo) [] []) nb).map (shiftPhase (-1))
          ++ bin_core (mkObs (phase_fold [] p pd epo) [] []) nb)).phase.length = _
      rw [hmk]
      simp [toBinnedLC, bin_core]
      omega
  · refine ⟨_, rfl, ?_, ?_, ?_⟩
    · show (toBinnedLC ((bin_core (mkObs (phase_fold [] p pd epo) [] []) nb).map (shiftPhase (-1))
          ++ bin_core (mkObs (phase_fold [] p pd epo) [] []) nb
          ++ (bin_core (mkObs (phase_fold [] p pd epo) [] []) nb).map (shiftPhase 1))).flux = _
      rw [hmk]
      simp only [toBinnedLC, List.map_append, bin_core_nil_flux, bin_core_nil_shift_flux]
      rw [← List.replicate_add, ← List.replicate_add]
      congr 1
      rw [show (3 : ℤ).toNat = 3 from rfl]
      omega
    · show (toBinnedLC ((bin_core (mkObs (phase_fold [] p pd epo) [] []) nb).map (shiftPhase (-1))
          ++ bin_core (mkObs (phase_fold [] p pd epo) [] []) nb
          ++ (bin_core (mkObs (phase_fold [] p pd epo) [] []) nb).map (shiftPhase 1))).fluxErrSq = _
      rw [hmk]
      simp only [toBinnedLC, List.map_append, bin_core_nil_errsq, bin_core_nil_shift_errsq]
      rw [← List.replicate_add, ← List.replicate_add]
      congr 1
      rw [show (3 : ℤ).toNat = 3 from rfl]
      omega
    · show (toBinnedLC ((bin_core (mkObs (phase_fold [] p pd epo) [] []) nb).map (shiftPhase (-1))
          ++ bin_core (mkObs (phase_fold [] p pd epo) [] []) nb
          ++ (bin_core (mkObs (phase_fold [] p pd epo) [] []) nb).map (shiftPhase 1))).phase.length = _
      rw [hmk]
      simp [toBinnedLC, bin_core]
      omega

set_option maxHeartbeats 1000000 in
/-- C8 counterexample: with a truthy normalization requested, a source
whose `c` band has zero observations makes the checkpoint orchestrator
raise `NoValidData` (the empty band's bins are all NaN, leaving nothing
to normalize) instead of producing a NaN-filled binned curve for that
band. -/
theorem empty_band_with_normalization_errors :
    read_bin_lightcurve_ckpt (fun _ => some ⟨[0], [some 1], [some 1], ["o"], 0, 0⟩)
      [(0, ⟨1, 1, 1, 1, 1440, 1, 1, 1, 0⟩)] 0 1 1 (some "median") none none
      = .error .noValidData := by
  norm_num [read_bin_lightcurve_ckpt, read_lightcurve_ckpt, get_bls_stats, bandSelect,
    bin_phase_folded_data, phase_fold, phase_fold_one, pymod, listMin, mkObs,
    bin_core, binRow, inBinb, binEdge, binCenter, validOb, nanRow,
    apply_normalization, List.range_succ, List.find?, beq_iff_eq, beq_eq_false_iff_ne,
    show ("median" : String) ≠ "" from by decide,
    show ("o" : String) ≠ "c" from by decide]

/-- C8 amended: with normalization *not* requested (the falsy default),
a source whose `c` band holds zero observations still gets a complete
binned curve for that band — `num_bins * num_cycles` entries, flux and
flux error all NaN — and the returned mapping always carries both band
labels (`BandMap` has both fields by construction, mirroring the
source's literal `{"c": ..., "o": ...}` dictionary).  With a truthy
normalization the call instead raises `NoValidData` (see the
counterexample). -/
theorem empty_band_nan_curve (files : ℕ → Option LCData) (catalog : List (ℕ × BLSRec))
    (source_id : ℕ) (lc : LCData) (bls : BLSRec) (nb : ℕ) (nc : ℤ)
    (hfile : files source_id = some lc)
    (hbls : get_bls_stats catalog source_id = some bls)
    (hcband : ∀ s ∈ lc.filter, s ≠ "c")
    (hnc : nc = 1 ∨ nc = 2 ∨ nc = 3) :
    (read_bin_lightcurve_ckpt files catalog source_id nb nc none none none).map
        (Option.map (fun bm => (bm.c.flux, bm.c.fluxErrSq, bm.c.phase.length)))
      = .ok (some (List.replicate (nb * nc.toNat) none,
          List.replicate (nb * nc.toNat) none, nb * nc.toNat)) := by
  have hsel : bandSelect lc "c" = ([], [], []) := by
    have hidx : ∀ a, a < lc.filter.length → ¬ lc.filter[a]?.getD "" = "c" := by
      intro a ha
      have hmem : lc.filter[a]?.getD "" ∈ lc.filter := by
        rw [List.getElem?_eq_getElem ha, Option.getD_some]
        exact List.getElem_mem ha
      exact hcband _ hmem
    simp only [bandSelect]
    simp [List.filter_eq_nil_iff]
    exact hidx
  obtain ⟨bc, hbc, hbcf, hbce, hbcp⟩ := bpfd_empty_input bls.per_day 0 (some bls.epo) nb nc hnc
  obtain ⟨bo, hbo⟩ := bpfd_norm_none_ok (bandSelect lc "o").1 (bandSelect lc "o").2.1
    (bandSelect lc "o").2.2 bls.per_day 0 (some bls.epo) nb nc hnc
  simp only [read_bin_lightcurve_ckpt, read_lightcurve_ckpt, hfile, hbls, hsel, hbc, hbo,
    Except.map, Option.map]
  rw [hbcf, hbce, hbcp]

/-- Witness for the amended C8: concrete source with only `o`-band
observations, one bin, one cycle, no normalization. -/
theorem empty_band_nan_curve_witness :
    (read_bin_lightcurve_ckpt (fun _ => some ⟨[0], [some 1], [some 1], ["o"], 0, 0⟩)
        [(0, ⟨1, 1, 1, 1, 1440, 1, 1, 1, 0⟩)] 0 1 1 none none none).map
        (Option.map (fun bm => (bm.c.flux, bm.c.fluxErrSq, bm.c.phase.length)))
      = .ok (some (List.replicate (1 * (1 : ℤ).toNat) none,
          List.replicate (1 * (1 : ℤ).toNat) none, 1 * (1 : ℤ).toNat)) :=
  empty_band_nan_curve (fun _ => some ⟨[0], [some 1], [some 1], ["o"], 0, 0⟩)
    [(0, ⟨1, 1, 1, 1, 1440, 1, 1, 1, 0⟩)] 0 ⟨[0], [some 1], [some 1], ["o"], 0, 0⟩
    ⟨1, 1, 1, 1, 1440, 1, 1, 1, 0⟩ 1 1 rfl rfl (by decide) (Or.inl rfl)

/-- C10: every record returned by `get_bls_stats` out of a loaded
catalog has `per_day = per_min / 1440`, recomputed at load time; the
`per_day` column of the `.result` files themselves is ignored —
rewriting it arbitrarily in every raw row leaves the loaded catalog
unchanged. -/
theorem per_day_recomputed (files : List (List RawBLSRow)) (source_id : ℕ) (rec : BLSRec)
    (h : get_bls_stats (load_catalog files) source_id = some rec) :
    rec.per_day = rec.per_min / 1440
    ∧ ∀ g : RawBLSRow → ℚ,
        load_catalog (files.map (List.map (fun row =>
          ⟨row.gid, row.pow, row.snr, row.wid, g row, row.per_min,
            row.q, row.phi0, row.dphi, row.epo⟩)))
          = load_catalog files := by
  constructor
  · cases hf : (load_catalog files).find? (fun p => p.1 == source_id) with
    | none =>
      simp only [get_bls_stats, hf] at h
      exact Option.noConfusion h
    | some pr =>
      simp only [get_bls_stats, hf, Option.some.injEq] at h
      have hmem : pr ∈ load_catalog files := List.mem_of_find?_eq_some hf
      obtain ⟨raw, _, hpr⟩ := List.mem_map.mp hmem
      rw [← h, ← hpr]
  · intro g
    simp only [load_catalog]
    rw [← List.map_flatten, List.map_map]
    exact List.map_congr_left (fun row _ => rfl)

/-- Witness for C10: a one-row catalog; the looked-up record's `per_day`
equals its `per_min / 1440`. -/
theorem per_day_recomputed_witness :
    (⟨1, 1, 1, 1440 / 1440, 1440, 1, 1, 1, 0⟩ : BLSRec).per_day
      = (⟨1, 1, 1, 1440 / 1440, 1440, 1, 1, 1, 0⟩ : BLSRec).per_min / 1440 :=
  (per_day_recomputed [[⟨5, 1, 1, 1, 999, 1440, 1, 1, 1, 0⟩]] 5
    ⟨1, 1, 1, 1440 / 1440, 1440, 1, 1, 1, 0⟩ rfl).1
